import Mathlib

/-!
Shallow embedding of the claude-tui dashboard (src/main.rs) and proofs about
its specification.  Rust strings are modelled as Lean `String` (a list of
characters); machine integers that never overflow in the modelled paths are
`Nat`; fallible operations return `Option` / `Except`.  External collaborators
(filesystem, subprocesses, the JSON library) are modelled as explicit
environment records whose fields hold the outcome the collaborator produced.
-/

namespace CTui

/-! ## String primitives (models of the Rust std string operations used) -/

/-- Model of `char::to_lowercase` restricted to ASCII (the only case the
program relies on): Lean's `Char.toLower`. Model of `str::to_lowercase`
applied characterwise. -/
def rustLower (s : String) : String :=
  ⟨s.data.map Char.toLower⟩

/-- Model of `String::is_empty`. -/
def strIsEmpty (s : String) : Bool :=
  s.data.isEmpty

/-- Model of `String::push` (append one character). -/
def strPush (s : String) (c : Char) : String :=
  ⟨s.data ++ [c]⟩

/-- Model of the effect of `String::pop` on the string (drop last char). -/
def strPopLast (s : String) : String :=
  ⟨s.data.dropLast⟩

/-- Model of `str::starts_with(c)` for a single character. -/
def startsWithChar (s : String) (c : Char) : Bool :=
  match s.data with
  | [] => false
  | a :: _ => a == c

/-- Model of `str::contains(needle)`: substring search on character lists. -/
def listContains (hay needle : List Char) : Bool :=
  match hay with
  | [] => needle.isEmpty
  | _ :: t => needle.isPrefixOf hay || listContains t needle

/-- Model of `str::contains` on strings. -/
def strContainsSub (hay needle : String) : Bool :=
  listContains hay.data needle.data

/-- Model of `str::trim`: drop leading and trailing whitespace. -/
def rustTrim (s : String) : String :=
  ⟨((s.data.dropWhile Char.isWhitespace).reverse.dropWhile Char.isWhitespace).reverse⟩

/-- Model of `str::parse::<u64>()`: optional leading plus sign, at least one
digit, all digits, value below 2^64. -/
def parseU64 (s : String) : Option Nat :=
  let digits :=
    match s.data with
    | '+' :: rest => rest
    | l => l
  if digits.isEmpty then none
  else if digits.all Char.isDigit then
    let v := digits.foldl (fun acc c => acc * 10 + (c.toNat - 48)) 0
    if v < 2 ^ 64 then some v else none
  else none

/-- Model of `str::strip_suffix`. -/
def stripSuffixStr (s suffix : String) : Option String :=
  if suffix.data.isSuffixOf s.data then
    some ⟨s.data.take (s.data.length - suffix.data.length)⟩
  else none

/-- Normalize a name for fuzzy matching: lowercase, strip
hyphens/spaces/underscores (src/main.rs, `normalize`). -/
def normalize (name : String) : String :=
  ⟨(name.data.map Char.toLower).filter
    (fun c => !(c == '-' || c == '_' || c == ' '))⟩

/-! ## Selection model (struct `App` and its methods) -/

/-- One discovered project (struct `Project` in src/main.rs).  `modified`
holds epoch seconds. -/
structure Project where
  name : String
  path : String
  source : String
  modified : Option Nat
  has_doc : Bool
  git_branch : Option String
  git_dirty : Bool
  config_labels : List String
deriving DecidableEq, Repr

/-- The session state (struct `App`): `selected` models
`list_state.selected()`. -/
structure App where
  projects : List Project
  selected : Option Nat
  searching : Bool
  filter : String
  quit : Bool
deriving DecidableEq, Repr

/-- Method `App::filtered_indices`: indices of projects whose lowercased name
contains the lowercased filter (every index when the filter is empty). -/
def App.filtered_indices (app : App) : List Nat :=
  let query := rustLower app.filter
  ((app.projects.enum.filter
      (fun ip => strIsEmpty query || strContainsSub (rustLower ip.2.name) query)).map
    (fun ip => ip.1))

/-- Method `App::move_selection`. -/
def App.move_selection (app : App) (delta : Int) : App :=
  let filtered := app.filtered_indices
  if filtered.isEmpty then
    { app with selected := none }
  else
    let current := app.selected.getD 0
    let new :=
      if delta > 0 then
        min (current + 1) (filtered.length - 1)
      else
        current - 1
    { app with selected := some new }

/-- Method `App::selected_project`. -/
def App.selected_project (app : App) : Option Project := do
  let filtered := app.filtered_indices
  let selected ← app.selected
  let index ← filtered.get? selected
  app.projects.get? index

/-- Key codes relevant to the input loop (crossterm `KeyCode`). -/
inductive KeyCode where
  | esc
  | backspace
  | enter
  | up
  | down
  | char (c : Char)
  | other
deriving DecidableEq, Repr

/-- The search-mode branch of the input loop (src/main.rs lines 428-450);
only the state mutations are modelled, `Enter` dispatches an action that
leaves the selection state unchanged. -/
def handleSearchKey (app : App) (k : KeyCode) : App :=
  match k with
  | .esc =>
      { app with searching := false, filter := "", selected := some 0 }
  | .backspace =>
      let f := strPopLast app.filter
      { app with
        filter := f,
        searching := if strIsEmpty f then false else app.searching,
        selected := some 0 }
  | .enter => app
  | .up => app.move_selection (-1)
  | .down => app.move_selection 1
  | .char c =>
      { app with filter := strPush app.filter c, selected := some 0 }
  | .other => app

/-- The browsing-mode branch of the input loop (src/main.rs lines 451-462). -/
def handleBrowseKey (app : App) (k : KeyCode) : App :=
  match k with
  | .char 'q' => { app with quit := true }
  | .char 'f' => app
  | .char 'd' => app
  | .char '/' => { app with searching := true }
  | .up => app.move_selection (-1)
  | .char 'k' => app.move_selection (-1)
  | .down => app.move_selection 1
  | .char 'j' => app.move_selection 1
  | .enter => app
  | _ => app

/-! ## DocumentLinker (`find_obsidian_doc`) and ActionDispatcher -/

/-- Outcome of the external filesystem probes `find_obsidian_doc` depends on:
whether `dirs::home_dir()` resolved, and the listing of the Obsidian docs
directory (`none` = `read_dir` failed). -/
structure ObsEnv where
  homePresent : Bool
  docsEntries : Option (List String)
deriving Repr

/-- Function `find_obsidian_doc`: fuzzy-match the project name against the `.md`
files of the docs directory; returns the matched file name (the model of
`entry.path()`). -/
def find_obsidian_doc (env : ObsEnv) (project_name : String) : Option String :=
  if env.homePresent then
    match env.docsEntries with
    | none => none
    | some entries =>
        entries.findSome? (fun filename =>
          match stripSuffixStr filename (".md") with
          | some stem =>
              if normalize stem == normalize project_name then some filename
              else none
          | none => none)
  else none

/-- Model of `Path::file_stem` for the file names returned by
`find_obsidian_doc` (they always end in `.md`). -/
def fileStem (s : String) : String :=
  match stripSuffixStr s (".md") with
  | some stem => stem
  | none => s

/-- Model of `str::replace(' ', "%20")`. -/
def percentEncodeSpaces (s : String) : String :=
  ⟨(s.data.map (fun c => if c == ' ' then ("%20").data else [c])).flatten⟩

/-- The external command `App::open_finder` would spawn (program, args);
`none` = no-op. -/
def App.open_finder_cmd (app : App) : Option (String × List String) :=
  app.selected_project.map (fun p => ("open", [p.path]))

/-- The external command `App::launch_claude` would run
(program, working directory, args); `none` = no-op. -/
def App.launch_claude_cmd (app : App) : Option (String × String × List String) :=
  app.selected_project.map (fun p => ("claude", p.path, ["--continue"]))

/-- The external command `App::open_doc` would spawn; `none` = no-op. -/
def App.open_doc_cmd (app : App) (env : ObsEnv) :
    Option (String × List String) := do
  let p ← app.selected_project
  let docPath ← find_obsidian_doc env p.name
  let stem := fileStem docPath
  some ("open",
    ["obsidian://open?vault=NV&file=Personal%2FApp%2F" ++ percentEncodeSpaces stem])

/-! ## TimeFormatter (`format_relative_time`) -/

/-- Function `format_relative_time`: `now` and the timestamp are epoch seconds;
`SystemTime::elapsed()` fails exactly when the timestamp is in the future. -/
def format_relative_time (now : Nat) (time : Option Nat) : String :=
  match time with
  | none => "—"
  | some t =>
      if now < t then "—"
      else
        let secs := now - t
        if secs ≤ 59 then "just now"
        else if secs ≤ 3599 then toString (secs / 60) ++ "m ago"
        else if secs ≤ 86399 then toString (secs / 3600) ++ "h ago"
        else if secs ≤ 2591999 then toString (secs / 86400) ++ "d ago"
        else if secs ≤ 31535999 then toString (secs / 2592000) ++ "mo ago"
        else toString (secs / 31536000) ++ "y ago"

/-- The bucketing exactly as the specification words it (strict upper
bounds), used to compare the code against the spec. -/
def specBucket (s : Nat) : String :=
  if s < 60 then "just now"
  else if s < 3600 then toString (s / 60) ++ "m ago"
  else if s < 86400 then toString (s / 3600) ++ "h ago"
  else if s < 2592000 then toString (s / 86400) ++ "d ago"
  else if s < 31536000 then toString (s / 2592000) ++ "mo ago"
  else toString (s / 31536000) ++ "y ago"

/-! ## GitInspector -/

/-- Outcomes of the three git subprocesses for one project: each field is
the captured stdout, `none` when the subprocess could not be run. -/
structure GitEnv where
  branchOut : Option String
  statusOut : Option String
  logOut : Option String
deriving Repr

/-- Branch extraction (src/main.rs lines 101-108). -/
def gitBranch (env : GitEnv) : Option String :=
  env.branchOut.bind (fun o =>
    let s := rustTrim o
    if strIsEmpty s then none else some s)

/-- Dirty extraction (src/main.rs lines 109-113); note it tests the raw
stdout, untrimmed. -/
def gitDirty (env : GitEnv) : Bool :=
  (env.statusOut.map (fun o => !(strIsEmpty o))).getD false

/-- Largest timestamp `SystemTime::UNIX_EPOCH + Duration::from_secs(ts)`
can represent: `tv_sec` is an `i64`, so the checked addition behind `+`
panics for `ts` above `i64::MAX`. -/
def I64_MAX : Nat := 2 ^ 63 - 1

/-- Last-commit-time extraction (src/main.rs lines 120-129) including the
final `.map(|ts| SystemTime::UNIX_EPOCH + Duration::from_secs(ts))` step:
the addition's overflow panic is modelled as `Except.error`, the resulting
timestamp as its epoch seconds. -/
def gitCommitTime (env : GitEnv) : Except String (Option Nat) :=
  match env.logOut with
  | none => Except.ok none
  | some o =>
      match parseU64 (rustTrim o) with
      | none => Except.ok none
      | some ts =>
          if ts ≤ I64_MAX then Except.ok (some ts)
          else Except.error ("overflow when adding duration to instant")

/-! ## Config labels -/

/-- JSON values as produced by the external `serde_json` parser. -/
inductive Json where
  | null
  | bool (b : Bool)
  | num (n : Int)
  | str (s : String)
  | arr (elems : List Json)
  | obj (fields : List (String × Json))
deriving Repr

/-- Model of `serde_json::Value::as_object` (field list of an object). -/
def Json.asObject : Json → Option (List (String × Json))
  | .obj fields => some fields
  | _ => none

/-- Model of `serde_json::Value::get(key)` on a parsed value. -/
def Json.getKey (j : Json) (key : String) : Option Json :=
  match j with
  | .obj fields => (fields.find? (fun kv => kv.1 == key)).map (fun kv => kv.2)
  | _ => none

/-- Filesystem facts the config-label step observes for one project:
`commandsEntries` is the `.claude/commands` listing result (`none` =
`read_dir` failed), `mcpParsed` is `read_to_string(.mcp.json).ok()`
composed with the JSON parse (`none` = read or parse failure). -/
structure ConfigEnv where
  hasClaudeMd : Bool
  commandsEntries : Option Nat
  hasMcpJson : Bool
  mcpParsed : Option Json
deriving Repr

/-- The config-label construction (src/main.rs lines 144-161). -/
def configLabels (env : ConfigEnv) : List String :=
  (if env.hasClaudeMd then ["claude.md"] else []) ++
  (let skill_count := env.commandsEntries.getD 0
   if skill_count > 0 then [toString skill_count ++ "skills"] else []) ++
  (if env.hasMcpJson then
    let mcp_count :=
      (env.mcpParsed.bind (fun v =>
        (v.getKey ("mcpServers")).bind (fun m => m.asObject.map List.length))).getD 1
    [toString mcp_count ++ "mcp"]
   else [])

/-- The config labels exactly as the specification words them: doc tag iff
the marker exists; skill label iff the directory listing succeeded with at
least one entry; integration label iff the file exists, carrying the
mapping's entry count when the file parses with the recognized key holding
a mapping, and count 1 otherwise. -/
def specConfigLabels (env : ConfigEnv) : List String :=
  (if env.hasClaudeMd then ["claude.md"] else []) ++
  (match env.commandsEntries with
   | some n => if 1 ≤ n then [toString n ++ "skills"] else []
   | none => []) ++
  (if env.hasMcpJson then
    match env.mcpParsed with
    | some v =>
        match v.getKey ("mcpServers") with
        | some m =>
            match m.asObject with
            | some fields => [toString fields.length ++ "mcp"]
            | none => ["1mcp"]
        | none => ["1mcp"]
    | none => ["1mcp"]
   else [])

/-! ## ProjectScanner (`scan_projects`) -/

/-- One direct child of a project directory, for the non-git mtime
fallback: `mtime` is `metadata().ok()?.modified().ok()`. -/
structure ChildEntry where
  name : String
  mtime : Option Nat
deriving Repr

/-- One directory entry of a scan root, together with the outcomes of every
filesystem/subprocess probe the scanner performs on it. -/
structure DirEntry where
  name : String
  isDir : Bool
  hasGit : Bool
  git : GitEnv
  children : Option (List ChildEntry)
  config : ConfigEnv
deriving Repr

/-- The whole input environment of one scan. -/
structure ScanEnv where
  obs : ObsEnv
  readDir : String → Option (List DirEntry)

/-- The configured scan roots (src/main.rs line 21). -/
def SCAN_DIRS : List String := ["Documents/app", "Documents/playground"]

/-- Model of `dir.rsplit('/').next().unwrap_or(dir)`. -/
def lastSegment (s : String) : String :=
  ⟨(s.data.reverse.takeWhile (fun c => !(c == '/'))).reverse⟩

/-- Rust's `Ord` on `Option<SystemTime>`: `None` below every `Some`. -/
def rustOptCmp : Option Nat → Option Nat → Ordering
  | none, none => .eq
  | none, some _ => .lt
  | some _, none => .gt
  | some a, some b => compare a b

/-- The order `sort_by(|a, b| b.modified.cmp(&a.modified))` sorts into:
`x` may come before `y` iff the comparator does not answer `Greater`. -/
def modLe (x y : Project) : Bool :=
  !(rustOptCmp y.modified x.modified == Ordering.gt)

/-- The final stable sort of the scan (src/main.rs line 180). -/
def sortProjects (l : List Project) : List Project :=
  l.mergeSort modLe

/-- The non-git mtime fallback over the direct children (src/main.rs lines
132-140). -/
def childMtime (cs : List ChildEntry) : Option Nat :=
  ((cs.filter (fun c =>
      !(startsWithChar c.name '.') && !(c.name == ".DS_Store"))).filterMap
    (fun c => c.mtime)).max?

/-- Sequential traversal of a loop body that can panic: the first
`Except.error` aborts the whole traversal, as a Rust panic aborts the
enclosing loop. -/
def exceptMap (f : α → Except String β) : List α → Except String (List β)
  | [] => Except.ok []
  | a :: as =>
      match f a with
      | Except.error msg => Except.error msg
      | Except.ok b =>
          match exceptMap f as with
          | Except.error msg => Except.error msg
          | Except.ok bs => Except.ok (b :: bs)

/-- Building one `Project` record from a scan-root entry (src/main.rs lines
94-172); the commit-time step can panic (src/main.rs line 129), which
aborts the construction. -/
def buildProject (dir : String) (obs : ObsEnv) (e : DirEntry) :
    Except String Project :=
  let is_git := e.hasGit
  match (if is_git then gitCommitTime e.git
         else Except.ok (e.children.bind childMtime)) with
  | Except.error msg => Except.error msg
  | Except.ok modified =>
      Except.ok
        { name := e.name
          path := dir ++ "/" ++ e.name
          source := lastSegment dir
          modified := modified
          has_doc := (find_obsidian_doc obs e.name).isSome
          git_branch := if is_git then gitBranch e.git else none
          git_dirty := if is_git then gitDirty e.git else false
          config_labels := configLabels e.config }

/-- The entry filter of the scan loop (directory, not dot-prefixed, not the
tool's own name; src/main.rs lines 93-95). -/
def eligibleEntry (e : DirEntry) : Bool :=
  e.isDir && (!(startsWithChar e.name '.') && !(e.name == "claude-tui"))

/-- Function `scan_projects`: the `expect` on the home directory is a panic,
modelled as `Except.error`, and the per-entry commit-time overflow panic
(src/main.rs line 129) propagates out of the scan loop the same way. -/
def scan_projects (env : ScanEnv) : Except String (List Project) :=
  if env.obs.homePresent then
    match exceptMap (fun dir =>
      match env.readDir dir with
      | none => Except.ok []
      | some entries =>
          exceptMap (buildProject dir env.obs) (entries.filter eligibleEntry))
      SCAN_DIRS with
    | Except.error msg => Except.error msg
    | Except.ok lists => Except.ok (sortProjects lists.flatten)
  else
    Except.error ("Cannot find home directory")

/-! ## Helper lemmas -/

theorem char_toNat_ofNat (n : Nat) (h : n.isValidChar) :
    (Char.ofNat n).toNat = n := by
  unfold Char.ofNat
  rw [dif_pos h]
  unfold Char.ofNatAux Char.toNat
  simp only [UInt32.toNat]
  simp only [BitVec.toNat_ofNatLt]

theorem toLower_idem (c : Char) :
    Char.toLower (Char.toLower c) = Char.toLower c := by
  simp only [Char.toLower]
  by_cases h : c.toNat ≥ 65 ∧ c.toNat ≤ 90
  · rw [if_pos h]
    have hv : (c.toNat + 32).isValidChar := Or.inl (by omega)
    have ht : (Char.ofNat (c.toNat + 32)).toNat = c.toNat + 32 :=
      char_toNat_ofNat _ hv
    rw [ht, if_neg (by omega)]
  · rw [if_neg h, if_neg h]

theorem strIsEmpty_iff (s : String) : strIsEmpty s = true ↔ s = "" := by
  constructor
  · intro h
    apply String.ext
    simpa [strIsEmpty, List.isEmpty_iff] using h
  · intro h
    subst h
    rfl

theorem listContains_correct (needle hay : List Char) :
    listContains hay needle = true ↔ needle <:+: hay := by
  induction hay with
  | nil =>
      simp [listContains, List.isEmpty_iff, List.infix_nil]
  | cons a t ih =>
      simp only [listContains, Bool.or_eq_true, List.isPrefixOf_iff_prefix, ih,
        List.infix_cons_iff]

/-! ## Claim C9 -/

/-- Claim C9: normalize is pure and total, idempotent, and
case/punctuation-insensitive: normalizing twice equals normalizing once,
and the two sample spellings normalize identically. -/
theorem normalize_idempotent_insensitive :
    (∀ x : String, normalize (normalize x) = normalize x) ∧
    normalize ("Daily-Digest") = normalize ("daily digest") := by
  constructor
  · intro x
    apply String.ext
    show ((((x.data.map Char.toLower).filter _).map Char.toLower).filter _) = _
    have hmap :
        (((x.data.map Char.toLower).filter
            (fun c => !(c == '-' || c == '_' || c == ' '))).map Char.toLower) =
          ((x.data.map Char.toLower).filter
            (fun c => !(c == '-' || c == '_' || c == ' '))) := by
      have hfix : ∀ c ∈ ((x.data.map Char.toLower).filter
          (fun c => !(c == '-' || c == '_' || c == ' '))),
          Char.toLower c = id c := by
        intro c hc
        have hc2 : c ∈ x.data.map Char.toLower := List.mem_of_mem_filter hc
        obtain ⟨y, _, rfl⟩ := List.mem_map.1 hc2
        exact toLower_idem y
      rw [List.map_congr_left hfix, List.map_id]
    rw [hmap, List.filter_filter]
    apply List.filter_congr
    intro c _
    cases h : (c == '-' || c == '_' || c == ' ') <;> simp [h]
  · decide

/-! ## Claim C3 -/

theorem filterPred_iff (query name : String) :
    (strIsEmpty query || strContainsSub (rustLower name) (query)) = true ↔
      query.data <:+: (rustLower name).data := by
  cases hq : strIsEmpty query
  · simp only [hq, Bool.false_or, strContainsSub]
    exact listContains_correct _ _
  · have hnil : query.data = [] := by
      rw [(strIsEmpty_iff query).1 hq]
    simp [hq, hnil, List.nil_infix]

/-- Sample project used by concrete witnesses. -/
def pAlpha : Project :=
  { name := "alpha", path := "", source := "", modified := none,
    has_doc := false, git_branch := none, git_dirty := false,
    config_labels := [] }

/-- Second sample project. -/
def pBeta : Project := { pAlpha with name := "beta" }

/-- Sample session state with two projects and the cursor on the second. -/
def appTwo : App :=
  { projects := [pAlpha, pBeta], selected := some 1, searching := false,
    filter := "", quit := false }

/-- Claim C3: `filtered_indices` returns exactly the indices of projects
whose lowercased name contains the lowercased filter as a substring, in
increasing index order (the backing collection's relative order); with an
empty filter it returns every index in original order. -/
theorem filtered_indices_spec (app : App) :
    (app.filter = "" → app.filtered_indices = List.range app.projects.length) ∧
    (∀ i : Nat, i ∈ app.filtered_indices ↔
      ∃ p, app.projects.get? i = some p ∧
        (rustLower app.filter).data <:+: (rustLower p.name).data) ∧
    List.Pairwise (fun a b => a < b) app.filtered_indices := by
  refine ⟨?_, ?_, ?_⟩
  · intro h
    simp only [App.filtered_indices]
    rw [h]
    have h0 : strIsEmpty (rustLower "") = true := by decide
    have hall : ∀ ip ∈ app.projects.enum,
        (strIsEmpty (rustLower "") ||
          strContainsSub (rustLower ip.2.name) (rustLower "")) = true := by
      intro ip _
      simp [h0]
    rw [List.filter_eq_self.mpr hall, List.enum_map_fst]
  · intro i
    simp only [App.filtered_indices]
    simp only [List.mem_map, List.mem_filter, List.mem_enum_iff_getElem?]
    constructor
    · rintro ⟨⟨j, p⟩, ⟨hmem, hpred⟩, rfl⟩
      refine ⟨p, ?_, (filterPred_iff _ _).1 hpred⟩
      rw [List.get?_eq_getElem?]
      exact hmem
    · rintro ⟨p, hget, hinf⟩
      rw [List.get?_eq_getElem?] at hget
      exact ⟨(i, p), ⟨hget, (filterPred_iff _ _).2 hinf⟩, rfl⟩
  · have hsub : app.filtered_indices.Sublist
        (List.range app.projects.length) := by
      simp only [App.filtered_indices]
      have h1 := (List.filter_sublist
        (p := fun ip => strIsEmpty (rustLower app.filter) ||
          strContainsSub (rustLower ip.2.name) (rustLower app.filter))
        app.projects.enum).map (fun ip => ip.1)
      rwa [List.enum_map_fst] at h1
    exact List.Pairwise.sublist hsub (List.pairwise_lt_range _)

/-- Claim C3 witness: the empty filter on the two-project sample state
yields all indices in order. -/
theorem filtered_indices_spec_witness :
    appTwo.filtered_indices = List.range 2 ∧
    List.Pairwise (fun a b => a < b) appTwo.filtered_indices :=
  ⟨(filtered_indices_spec appTwo).1 rfl, (filtered_indices_spec appTwo).2.2⟩

/-! ## Claim C4 -/

theorem move_selection_selected_eq (app : App) (delta : Int) :
    (app.move_selection delta).selected =
      if app.filtered_indices.isEmpty then none
      else some (if delta > 0 then
        min (app.selected.getD 0 + 1) (app.filtered_indices.length - 1)
      else app.selected.getD 0 - 1) := by
  simp only [App.move_selection]
  by_cases hemp : app.filtered_indices.isEmpty <;> simp [hemp]

/-- Claim C4: under the invariant (cursor valid or view empty),
`move_selection` yields an absent cursor exactly on an empty filtered view,
never an out-of-range index; backward from 0 stays at 0 and forward from
the last index stays at the last index. -/
theorem move_selection_safe (app : App) (delta : Int)
    (h : app.filtered_indices = [] ∨
      ∃ i, app.selected = some i ∧ i < app.filtered_indices.length) :
    ((app.move_selection delta).selected = none ↔
      app.filtered_indices = []) ∧
    (∀ j, (app.move_selection delta).selected = some j →
      j < app.filtered_indices.length) ∧
    (app.selected = some 0 → ¬ delta > 0 → app.filtered_indices ≠ [] →
      (app.move_selection delta).selected = some 0) ∧
    (app.selected = some (app.filtered_indices.length - 1) → delta > 0 →
      app.filtered_indices ≠ [] →
      (app.move_selection delta).selected =
        some (app.filtered_indices.length - 1)) := by
  rw [move_selection_selected_eq]
  by_cases hemp : app.filtered_indices.isEmpty
  · have he : app.filtered_indices = [] := List.isEmpty_iff.1 hemp
    simp [hemp, he]
  · have hne : app.filtered_indices ≠ [] := by
      simpa [List.isEmpty_iff] using hemp
    have hlen : 0 < app.filtered_indices.length := List.length_pos.2 hne
    have hempf : app.filtered_indices.isEmpty = false := by
      simpa using hemp
    rcases h with he | ⟨i, hsel, hlt⟩
    · exact absurd he hne
    · simp only [hempf, Bool.false_eq_true, if_false, hsel, Option.getD_some]
      refine ⟨by simp [hne], ?_, ?_, ?_⟩
      · intro j hj
        rw [Option.some_inj] at hj
        by_cases hd : delta > 0 <;> simp [hd] at hj <;> omega
      · intro h0 hdneg _
        rw [Option.some_inj] at h0
        simp [hdneg, h0]
      · intro hlast hd _
        rw [Option.some_inj] at hlast
        simp only [hd, if_true]
        congr 1
        omega

/-- Sample one-project session state with the cursor on index 0. -/
def appOneSel : App :=
  { projects := [pAlpha], selected := some 0, searching := false,
    filter := "", quit := false }

/-- Claim C4 witness: moving forward on a one-element view keeps the
cursor at the last (only) index. -/
theorem move_selection_safe_witness :
    ((appOneSel.move_selection 1).selected = none ↔
      appOneSel.filtered_indices = []) ∧
    (appOneSel.move_selection 1).selected =
      some (appOneSel.filtered_indices.length - 1) := by
  have h := move_selection_safe appOneSel 1 (Or.inr ⟨0, rfl, by decide⟩)
  exact ⟨h.1, h.2.2.2 (by decide) (by decide) (by decide)⟩

/-! ## Claim C10 -/

/-- Claim C10: with a stored cursor out of range of the current filtered
view (in particular index 0 on an empty view), `selected_project` is
absent and every action is a no-op. -/
theorem selected_none_actions_noop (app : App) (env : ObsEnv) (i : Nat)
    (hsel : app.selected = some i)
    (hran : app.filtered_indices.length ≤ i) :
    app.selected_project = none ∧
    app.launch_claude_cmd = none ∧
    app.open_finder_cmd = none ∧
    app.open_doc_cmd env = none := by
  have hnone : app.filtered_indices[i]? = none := by
    rw [← List.get?_eq_getElem?]
    exact List.get?_eq_none.2 hran
  have hsp : app.selected_project = none := by
    simp [App.selected_project, hsel, hnone]
  exact ⟨hsp, by simp [App.launch_claude_cmd, hsp],
    by simp [App.open_finder_cmd, hsp],
    by simp [App.open_doc_cmd, hsp]⟩

/-- Sample empty-collection state whose stored cursor is index 0. -/
def appEmpty : App :=
  { projects := [], selected := some 0, searching := false,
    filter := "", quit := false }

/-- Sample document-linker environment. -/
def obsNone : ObsEnv := { homePresent := true, docsEntries := none }

/-- Claim C10 witness: index 0 on the empty filtered view. -/
theorem selected_none_actions_noop_witness :
    appEmpty.selected_project = none ∧
    appEmpty.launch_claude_cmd = none ∧
    appEmpty.open_finder_cmd = none ∧
    appEmpty.open_doc_cmd obsNone = none :=
  selected_none_actions_noop appEmpty obsNone 0 rfl (by decide)

/-! ## Claim C1 -/

/-- Sample searching state whose filter already excludes every project. -/
def appSearchZ : App :=
  { projects := [pAlpha], selected := some 0, searching := true,
    filter := "z", quit := false }

/-- Claim C1 counterexample: pressing the search key leaves the cursor at
index 1 (not 0) although the filtered view is non-empty, and appending a
character that empties the filtered view stores cursor index 0 instead of
making it absent. -/
theorem cursor_reset_counterexample :
    ((handleBrowseKey appTwo (KeyCode.char '/')).selected = some 1 ∧
      (handleBrowseKey appTwo (KeyCode.char '/')).filtered_indices = [0, 1] ∧
      (handleBrowseKey appTwo (KeyCode.char '/')).selected ≠ some 0) ∧
    ((handleSearchKey appSearchZ (KeyCode.char 'z')).selected = some 0 ∧
      (handleSearchKey appSearchZ (KeyCode.char 'z')).filtered_indices = [] ∧
      (handleSearchKey appSearchZ (KeyCode.char 'z')).selected ≠ none) := by
  decide

/-- Claim C1 amended: appending a character and deleting a character each
store cursor index 0 unconditionally (even when the new filtered view is
empty, where the stored index is 0 rather than absent), and entering
search mode leaves the cursor and the filter unchanged. -/
theorem cursor_reset_amended (app : App) (c : Char) :
    (handleSearchKey app (KeyCode.char c)).selected = some 0 ∧
    (handleSearchKey app KeyCode.backspace).selected = some 0 ∧
    (handleBrowseKey app (KeyCode.char '/')).selected = app.selected ∧
    (handleBrowseKey app (KeyCode.char '/')).filter = app.filter :=
  ⟨rfl, rfl, rfl, rfl⟩

/-! ## Claim C6 -/

/-- Claim C6: the formatter returns the unknown glyph on an absent or
future timestamp, otherwise buckets the elapsed seconds exactly as the
specification words it, with the four sample values. -/
theorem format_relative_time_spec :
    (∀ now : Nat, format_relative_time now none = "—") ∧
    (∀ now t : Nat, now < t → format_relative_time now (some t) = "—") ∧
    (∀ now t : Nat, t ≤ now →
      format_relative_time now (some t) = specBucket (now - t)) ∧
    (∀ now : Nat, 172800 ≤ now →
      format_relative_time now (some (now - 30)) = "just now" ∧
      format_relative_time now (some (now - 90)) = "1m ago" ∧
      format_relative_time now (some (now - 7200)) = "2h ago" ∧
      format_relative_time now (some (now - 172800)) = "2d ago") := by
  refine ⟨fun now => rfl, ?_, ?_, ?_⟩
  · intro now t h
    simp [format_relative_time, h]
  · intro now t h
    simp only [format_relative_time, specBucket]
    rw [if_neg (by omega)]
    split_ifs <;> first | rfl | omega
  · intro now h
    refine ⟨?_, ?_, ?_, ?_⟩
    · simp only [format_relative_time]
      rw [if_neg (by omega), show now - (now - 30) = 30 by omega]
      decide
    · simp only [format_relative_time]
      rw [if_neg (by omega), show now - (now - 90) = 90 by omega]
      decide
    · simp only [format_relative_time]
      rw [if_neg (by omega), show now - (now - 7200) = 7200 by omega]
      decide
    · simp only [format_relative_time]
      rw [if_neg (by omega), show now - (now - 172800) = 172800 by omega]
      decide

/-- Claim C6 witness at a concrete clock value. -/
theorem format_relative_time_spec_witness :
    format_relative_time 200000 none = "—" ∧
    format_relative_time 200000 (some (200000 - 172800)) = "2d ago" :=
  ⟨format_relative_time_spec.1 200000,
    (format_relative_time_spec.2.2.2 200000 (by norm_num)).2.2.2⟩

/-! ## Claim C7 -/

theorem strIsEmpty_eq_false_iff (s : String) :
    strIsEmpty s = false ↔ s ≠ "" := by
  constructor
  · intro h hs
    rw [hs] at h
    exact absurd h (by decide)
  · intro h
    cases hb : strIsEmpty s
    · rfl
    · exact absurd ((strIsEmpty_iff s).1 hb) h

/-- Sample git environment whose log output parses as a `u64` above
`i64::MAX`. -/
def gitEnvHuge : GitEnv :=
  { branchOut := none, statusOut := none,
    logOut := some ("18446744073709551615") }

/-- Claim C7 counterexample: a log output of `u64::MAX` parses
successfully, yet the extraction panics at the epoch addition
(src/main.rs line 129) instead of degrading to the parsed value or to
absent. -/
theorem git_commit_time_panic_counterexample :
    parseU64 (rustTrim ("18446744073709551615")) =
      some 18446744073709551615 ∧
    gitCommitTime gitEnvHuge =
      Except.error ("overflow when adding duration to instant") := by
  constructor
  · decide
  · rfl

/-- Claim C7 amended: branch is absent on subprocess failure or empty
trimmed output and is the trimmed output otherwise; dirty is false on
failure and otherwise true iff the raw output is non-empty; commit time is
absent when the subprocess fails or the trimmed output does not parse, and
is the parsed epoch seconds when that value is at most `i64::MAX` — but
when the output parses to a value above `i64::MAX` the extraction panics
instead of degrading. -/
theorem git_degradation (env : GitEnv) :
    (env.branchOut = none → gitBranch env = none) ∧
    (∀ o, env.branchOut = some o → rustTrim o = "" → gitBranch env = none) ∧
    (∀ o, env.branchOut = some o → rustTrim o ≠ "" →
      gitBranch env = some (rustTrim o)) ∧
    (env.statusOut = none → gitDirty env = false) ∧
    (∀ o, env.statusOut = some o → (gitDirty env = true ↔ o ≠ "")) ∧
    (env.logOut = none → gitCommitTime env = Except.ok none) ∧
    (∀ o, env.logOut = some o → parseU64 (rustTrim o) = none →
      gitCommitTime env = Except.ok none) ∧
    (∀ o ts, env.logOut = some o → parseU64 (rustTrim o) = some ts →
      ts ≤ I64_MAX → gitCommitTime env = Except.ok (some ts)) ∧
    (∀ o ts, env.logOut = some o → parseU64 (rustTrim o) = some ts →
      I64_MAX < ts → ∃ msg, gitCommitTime env = Except.error msg) := by
  refine ⟨?_, ?_, ?_, ?_, ?_, ?_, ?_, ?_, ?_⟩
  · intro h
    simp [gitBranch, h]
  · intro o h he
    have : strIsEmpty (rustTrim o) = true := (strIsEmpty_iff _).2 he
    simp [gitBranch, h, this]
  · intro o h hne
    have : strIsEmpty (rustTrim o) = false := (strIsEmpty_eq_false_iff _).2 hne
    simp [gitBranch, h, this]
  · intro h
    simp [gitDirty, h]
  · intro o h
    cases he : strIsEmpty o
    · simp [gitDirty, h, he, (strIsEmpty_eq_false_iff _).1 he]
    · have ho := (strIsEmpty_iff _).1 he
      subst ho
      simp [gitDirty, h, show strIsEmpty ("") = true from by decide]
  · intro h
    simp [gitCommitTime, h]
  · intro o h hp
    simp [gitCommitTime, h, hp]
  · intro o ts h hp hle
    simp [gitCommitTime, h, hp, hle]
  · intro o ts h hp hgt
    refine ⟨"overflow when adding duration to instant", ?_⟩
    simp [gitCommitTime, h, hp, Nat.not_le.2 hgt]

/-- Sample git environment: branch output with whitespace, empty status
output, failed log subprocess. -/
def gitEnvEx : GitEnv :=
  { branchOut := some (" main\n"), statusOut := some (""), logOut := none }

/-- Claim C7 witness. -/
theorem git_degradation_witness :
    gitBranch gitEnvEx = some (rustTrim (" main\n")) ∧
    (gitDirty gitEnvEx = true ↔ ("" : String) ≠ "") ∧
    gitCommitTime gitEnvEx = Except.ok none ∧
    (∃ msg, gitCommitTime gitEnvHuge = Except.error msg) := by
  have h := git_degradation gitEnvEx
  have hh := git_degradation gitEnvHuge
  refine ⟨h.2.2.1 _ rfl (by decide), h.2.2.2.2.1 _ rfl,
    h.2.2.2.2.2.1 rfl, ?_⟩
  exact hh.2.2.2.2.2.2.2.2 ("18446744073709551615") 18446744073709551615
    rfl (by decide) (by decide)

/-! ## Claim C8 -/

/-- Claims scenario environment: `.mcp.json` exists but its body does not
parse. -/
def cfgUnparsable : ConfigEnv :=
  { hasClaudeMd := false, commandsEntries := none,
    hasMcpJson := true, mcpParsed := none }

/-- Claim C8: the config labels are built in the fixed order (doc tag,
skill count, integration label) with exactly the specification's
conditions and counts — in particular the integration label still appears
with count 1 when the file exists but does not parse or lacks the key:
the code agrees with the spec-worded construction on every environment,
and the unparsable-file scenario yields exactly the count-1 label. -/
theorem configLabels_eq_spec :
    (∀ env : ConfigEnv, configLabels env = specConfigLabels env) ∧
    configLabels cfgUnparsable = ["1mcp"] := by
  constructor
  · intro env
    obtain ⟨hdoc, cmds, hmcp, mcp⟩ := env
    simp only [configLabels, specConfigLabels]
    congr 1
    · cases cmds with
      | none => simp
      | some n => simp [Nat.lt_iff_add_one_le]
    · cases hmcp
      · simp
      · simp only [if_true]
        cases mcp with
        | none =>
            simp
            decide
        | some v =>
            cases hk : v.getKey ("mcpServers") with
            | none =>
                simp [hk]
                decide
            | some m =>
                cases ha : m.asObject with
                | none =>
                    simp [hk, ha]
                    decide
                | some fields => simp [hk, ha]
  · decide

/-! ## Claim C2 -/

/-- Environment in which the home directory does not resolve. -/
def envNoHome : ScanEnv :=
  { obs := { homePresent := false, docsEntries := none },
    readDir := fun _ => none }

/-- Environment with a home directory but no listable root. -/
def envHomeEmpty : ScanEnv :=
  { obs := { homePresent := true, docsEntries := none },
    readDir := fun _ => none }

/-- Claim C2 counterexample: when the home directory cannot be resolved
the scan aborts (the `expect` panic), it does not degrade and continue. -/
theorem scan_aborts_without_home :
    scan_projects envNoHome = Except.error ("Cannot find home directory") := rfl

theorem exceptMap_ok_length {α β : Type} (f : α → Except String β)
    (l : List α) (h : ∀ a ∈ l, ∃ b, f a = Except.ok b) :
    ∃ r, exceptMap f l = Except.ok r ∧ r.length = l.length := by
  induction l with
  | nil => exact ⟨[], rfl, rfl⟩
  | cons a as ih =>
      obtain ⟨b, hb⟩ := h a (List.mem_cons_self a as)
      obtain ⟨r, hr, hrl⟩ := ih (fun x hx => h x (List.mem_cons_of_mem a hx))
      exact ⟨b :: r, by simp [exceptMap, hb, hr], by simp [hrl]⟩

theorem exceptMap_ok_flatten_sum {α γ : Type}
    (f : α → Except String (List γ)) (g : α → Nat) (l : List α)
    (h : ∀ a ∈ l, ∃ bs, f a = Except.ok bs ∧ bs.length = g a) :
    ∃ r, exceptMap f l = Except.ok r ∧
      r.flatten.length = (l.map g).sum := by
  induction l with
  | nil => exact ⟨[], rfl, rfl⟩
  | cons a as ih =>
      obtain ⟨bs, hb, hblen⟩ := h a (List.mem_cons_self a as)
      obtain ⟨r, hr, hrl⟩ := ih (fun x hx => h x (List.mem_cons_of_mem a hx))
      refine ⟨bs :: r, by simp [exceptMap, hb, hr], ?_⟩
      simp [hblen, hrl]

theorem buildProject_ok (dir : String) (obs : ObsEnv) (e : DirEntry)
    (h : e.hasGit = true → ∃ om, gitCommitTime e.git = Except.ok om) :
    ∃ p, buildProject dir obs e = Except.ok p := by
  cases hg : e.hasGit
  · refine ⟨?_, ?_⟩
    · exact
        { name := e.name
          path := dir ++ "/" ++ e.name
          source := lastSegment dir
          modified := e.children.bind childMtime
          has_doc := (find_obsidian_doc obs e.name).isSome
          git_branch := none
          git_dirty := false
          config_labels := configLabels e.config }
    · simp [buildProject, hg]
  · obtain ⟨om, hom⟩ := h hg
    refine ⟨?_, ?_⟩
    · exact
        { name := e.name
          path := dir ++ "/" ++ e.name
          source := lastSegment dir
          modified := om
          has_doc := (find_obsidian_doc obs e.name).isSome
          git_branch := gitBranch e.git
          git_dirty := gitDirty e.git
          config_labels := configLabels e.config }
    · simp [buildProject, hg, hom]

/-- Sample scan-root entry: a git project whose log output parses above
`i64::MAX`. -/
def entryHuge : DirEntry :=
  { name := "proj", isDir := true, hasGit := true, git := gitEnvHuge,
    children := none,
    config := { hasClaudeMd := false, commandsEntries := none,
                hasMcpJson := false, mcpParsed := none } }

/-- Environment whose only eligible project triggers the commit-time
overflow panic. -/
def envOverflow : ScanEnv :=
  { obs := { homePresent := true, docsEntries := none },
    readDir := fun dir =>
      if dir == "Documents/app" then some [entryHuge] else none }

/-- Claim C2 amended: the scan aborts when the home directory fails to
resolve, and also when an eligible git project's log output parses to
epoch seconds above `i64::MAX` (the overflow panic of src/main.rs line
129). In every other environment — home resolves and no commit-time
extraction panics — the scan succeeds: listing failures, git subprocess
failures and config parse failures degrade to defaults and scanning
continues, each listable root contributing exactly its eligible entries
and unlistable roots contributing nothing. -/
theorem scan_total_given_home :
    (∀ env : ScanEnv, env.obs.homePresent = true →
      (∀ dir, dir ∈ SCAN_DIRS → ∀ entries, env.readDir dir = some entries →
        ∀ e, e ∈ entries → eligibleEntry e = true → e.hasGit = true →
          ∃ om, gitCommitTime e.git = Except.ok om) →
      ∃ l, scan_projects env = Except.ok l ∧
        l.length = (SCAN_DIRS.map (fun dir =>
          match env.readDir dir with
          | none => 0
          | some entries => (entries.filter eligibleEntry).length)).sum) ∧
    (∃ msg, scan_projects envOverflow = Except.error msg) := by
  constructor
  · intro env hh hgit
    have hdirs : ∀ dir ∈ SCAN_DIRS, ∃ bs,
        (match env.readDir dir with
         | none => Except.ok []
         | some entries =>
             exceptMap (buildProject dir env.obs)
               (entries.filter eligibleEntry)) = Except.ok bs ∧
        bs.length = (match env.readDir dir with
         | none => 0
         | some entries => (entries.filter eligibleEntry).length) := by
      intro dir hdir
      cases hr : env.readDir dir with
      | none => exact ⟨[], by simp, by simp⟩
      | some entries =>
          have hall : ∀ e ∈ entries.filter eligibleEntry,
              ∃ p, buildProject dir env.obs e = Except.ok p := by
            intro e he
            have hmem : e ∈ entries := List.mem_of_mem_filter he
            have helig : eligibleEntry e = true := (List.mem_filter.1 he).2
            exact buildProject_ok dir env.obs e
              (fun hg => hgit dir hdir entries hr e hmem helig hg)
          obtain ⟨r, hrr, hrl⟩ := exceptMap_ok_length _ _ hall
          exact ⟨r, by simp [hrr], by simp [hrl]⟩
    obtain ⟨lists, hmap, hsum⟩ :=
      exceptMap_ok_flatten_sum
        (fun dir => match env.readDir dir with
          | none => Except.ok []
          | some entries =>
              exceptMap (buildProject dir env.obs)
                (entries.filter eligibleEntry))
        (fun dir => match env.readDir dir with
          | none => 0
          | some entries => (entries.filter eligibleEntry).length)
        SCAN_DIRS hdirs
    refine ⟨sortProjects lists.flatten, ?_, ?_⟩
    · simp only [scan_projects]
      rw [if_pos hh, hmap]
    · simp only [sortProjects]
      rw [(List.mergeSort_perm _ _).length_eq]
      exact hsum
  · exact ⟨"overflow when adding duration to instant", rfl⟩

/-- Claim C2 amended witness. -/
theorem scan_total_given_home_witness :
    ∃ l, scan_projects envHomeEmpty = Except.ok l ∧
      l.length = (SCAN_DIRS.map (fun dir =>
        match envHomeEmpty.readDir dir with
        | none => 0
        | some entries => (entries.filter eligibleEntry).length)).sum :=
  scan_total_given_home.1 envHomeEmpty rfl
    (fun dir _ entries h => nomatch h)

/-! ## Claim C5 -/

theorem rustOptCmp_ne_gt_iff (a b : Option Nat) :
    ¬ rustOptCmp a b = Ordering.gt ↔
      (a = none ∨ ∃ u v, a = some u ∧ b = some v ∧ u ≤ v) := by
  cases a <;> cases b <;> simp [rustOptCmp, Nat.compare_eq_gt]

theorem modLe_true_iff (x y : Project) :
    modLe x y = true ↔
      (y.modified = none ∨
        ∃ u v, y.modified = some u ∧ x.modified = some v ∧ u ≤ v) := by
  have h1 : modLe x y = true ↔
      ¬ rustOptCmp y.modified x.modified = Ordering.gt := by
    cases hc : rustOptCmp y.modified x.modified <;>
      simp only [modLe, hc] <;> decide
  rw [h1, rustOptCmp_ne_gt_iff]

theorem modLe_total (x y : Project) : (modLe x y || modLe y x) = true := by
  rw [Bool.or_eq_true, modLe_true_iff, modLe_true_iff]
  rcases hx : x.modified with _ | u <;> rcases hy : y.modified with _ | v <;>
    simp [hx, hy] <;> try omega

theorem modLe_trans (a b c : Project) (hab : modLe a b = true)
    (hbc : modLe b c = true) : modLe a c = true := by
  rw [modLe_true_iff] at hab hbc ⊢
  rcases hbc with hc | ⟨u2, v2, hcu, hbv, h2⟩
  · exact Or.inl hc
  · rcases hab with hb | ⟨u1, v1, hbu, hav, h1⟩
    · rw [hb] at hbv
      exact Option.noConfusion hbv
    · have hv : u1 = v2 := Option.some_inj.1 (hbu.symm.trans hbv)
      exact Or.inr ⟨u2, v1, hcu, hav, by omega⟩

/-- Descending order on `modified` with absent values at the tail, as the
specification words it. -/
def descModified (a b : Project) : Prop :=
  b.modified = none ∨
    ∃ u v, a.modified = some u ∧ b.modified = some v ∧ v ≤ u

theorem modLe_desc {a b : Project} (h : modLe a b = true) :
    descModified a b := by
  rcases (modLe_true_iff a b).1 h with hb | ⟨u, v, hbu, hav, huv⟩
  · exact Or.inl hb
  · exact Or.inr ⟨v, u, hav, hbu, huv⟩

/-- The five-project sample of the claim, `modified` values in the order
none, 100, 50, none, 200. -/
def exProjects5 : List Project :=
  [ { pAlpha with name := "q1", modified := none },
    { pAlpha with name := "q2", modified := some 100 },
    { pAlpha with name := "q3", modified := some 50 },
    { pAlpha with name := "q4", modified := none },
    { pAlpha with name := "q5", modified := some 200 } ]

/-- Claim C5: every collection a scan returns is sorted descending by
`modified` with absent values after every present value, and on the sample
values [none, 100, 50, none, 200] the sorted modified-field order is
[200, 100, 50, none, none]. -/
theorem scan_sorted_desc :
    (∀ (env : ScanEnv) (l : List Project),
      scan_projects env = Except.ok l → List.Pairwise descModified l) ∧
    (sortProjects exProjects5).map (fun p => p.modified) =
      [some 200, some 100, some 50, none, none] := by
  constructor
  · intro env l h
    have hs : ∀ m : List Project,
        List.Pairwise descModified (sortProjects m) := by
      intro m
      exact (List.sorted_mergeSort modLe_trans modLe_total m).imp
        (fun hab => modLe_desc hab)
    simp only [scan_projects] at h
    by_cases hh : env.obs.homePresent = true
    · rw [if_pos hh] at h
      split at h
      · exact Except.noConfusion h
      · rw [← Except.ok.inj h]
        exact hs _
    · rw [if_neg hh] at h
      exact Except.noConfusion h
  · simp +decide [sortProjects, exProjects5, pAlpha, List.mergeSort,
      List.merge, modLe, rustOptCmp, compareOfLessAndEq]

/-- Claim C5 witness: a successful concrete scan satisfies the ordering. -/
theorem scan_sorted_desc_witness :
    List.Pairwise descModified ([] : List Project) :=
  scan_sorted_desc.1 envHomeEmpty []
    (by simp [scan_projects, envHomeEmpty, SCAN_DIRS, exceptMap,
      sortProjects, List.mergeSort_nil])

end CTui
